import Mathlib

/-!
Verification development for the Metrohenge repository.

The repository's Recurrence Resolver is the pair of DuckDB SQL queries in
`src/index.md` (the `upcoming` and `recent` cells).  The page loads the
DuckDB `icu` extension (`observablehq.config.js`), so `make_timestamptz`
localizes wall-clock components in the named zone and
`timestamptz + INTERVAL '1 year'` performs ICU calendar arithmetic in the
session (browser) time zone.  We embed instants as minutes since the Unix
epoch (UTC), the proleptic Gregorian calendar via the standard
civil-from-days / days-from-civil algorithms, and time zones as a standard
offset plus an optional local-rule DST adjustment.
-/

/-- Gregorian leap-year predicate. -/
def isLeapYear (y : Int) : Bool :=
  y.emod 4 == 0 && (y.emod 100 != 0 || y.emod 400 == 0)

/-- Days from the Unix epoch (1970-01-01) to the civil date `y-m-d`
(proleptic Gregorian, Hinnant's algorithm). -/
def daysFromCivil (y : Int) (m d : Nat) : Int :=
  let y' : Int := if m ≤ 2 then y - 1 else y
  let era : Int := y'.fdiv 400
  let yoe : Nat := (y' - era * 400).toNat
  let mp : Nat := if m ≤ 2 then m + 9 else m - 3
  let doy : Nat := (153 * mp + 2) / 5 + d - 1
  let doe : Nat := yoe * 365 + yoe / 4 - yoe / 100 + doy
  era * 146097 + (doe : Int) - 719468

/-- Civil date `(year, month, day)` of a day count from the Unix epoch. -/
def civilFromDays (z : Int) : Int × Nat × Nat :=
  let z' : Int := z + 719468
  let era : Int := z'.fdiv 146097
  let doe : Nat := (z' - era * 146097).toNat
  let yoe : Nat := (doe - doe / 1460 + doe / 36524 - doe / 146096) / 365
  let y : Int := (yoe : Int) + era * 400
  let doy : Nat := doe - (365 * yoe + yoe / 4 - yoe / 100)
  let mp : Nat := (5 * doy + 2) / 153
  let d : Nat := doy - (153 * mp + 2) / 5 + 1
  let m : Nat := if mp < 10 then mp + 3 else mp - 9
  (if m ≤ 2 then y + 1 else y, m, d)

/-- Local wall-clock date-time components. -/
structure LocalDT where
  year : Int
  month : Nat
  day : Nat
  hour : Nat
  minute : Nat
deriving Repr, DecidableEq

/-- Minutes from the epoch to the (unzoned) wall clock `y-m-d h:mi`. -/
def wallMinutes (y : Int) (m d h mi : Nat) : Int :=
  daysFromCivil y m d * 1440 + (h * 60 + mi : Nat)

/-- Wall-clock components of a minute count from the epoch. -/
def civilFromMinutes (t : Int) : LocalDT :=
  let days : Int := t.fdiv 1440
  let rem : Nat := (t - days * 1440).toNat
  let c := civilFromDays days
  ⟨c.1, c.2.1, c.2.2, rem / 60, rem % 60⟩

/-- A time zone: a standard offset from UTC in minutes, the extra offset
during daylight saving, and the DST rule as a predicate on local wall-clock
components (IANA rules such as the US rule are stated in local time). -/
structure Timezone where
  stdOffset : Int
  dstExtra : Int
  isDstLocal : Int → Nat → Nat → Nat → Nat → Bool

/-- UTC offset (minutes east) in force at the given local components. -/
def Timezone.offsetOfLocal (tz : Timezone) (y : Int) (m d h mi : Nat) : Int :=
  tz.stdOffset + (if tz.isDstLocal y m d h mi then tz.dstExtra else 0)

/-- `make_timestamptz`: the instant whose wall clock in `tz` is
`y-m-d h:mi` (DST resolved by the local rule). -/
def Timezone.localize (tz : Timezone) (y : Int) (m d h mi : Nat) : Int :=
  wallMinutes y m d h mi - tz.offsetOfLocal y m d h mi

/-- Local wall-clock components of an instant in `tz`. -/
def Timezone.delocalize (tz : Timezone) (t : Int) : LocalDT :=
  let g := civilFromMinutes (t + tz.stdOffset)
  if tz.isDstLocal g.year g.month g.day g.hour g.minute then
    civilFromMinutes (t + tz.stdOffset + tz.dstExtra)
  else g

/-- Day of week of an epoch day count, `0` = Sunday. -/
def dayOfWeek (days : Int) : Nat := ((days + 4).emod 7).toNat

/-- Day of month of the first Sunday of month `m` in year `y`. -/
def firstSundayOfMonth (y : Int) (m : Nat) : Nat :=
  1 + (7 - dayOfWeek (daysFromCivil y m 1)) % 7

/-- US daylight-saving rule (since 2007): DST from the second Sunday in
March at 02:00 local to the first Sunday in November at 02:00 local. -/
def usDstLocal (y : Int) (m d h mi : Nat) : Bool :=
  if m < 3 ∨ 11 < m then false
  else if m = 3 then
    let s := firstSundayOfMonth y 3 + 7
    decide (s < d ∨ (d = s ∧ 120 ≤ h * 60 + mi))
  else if m = 11 then
    let f := firstSundayOfMonth y 11
    decide (d < f ∨ (d = f ∧ h * 60 + mi < 120))
  else true

/-- The UTC zone. -/
def utcTz : Timezone := ⟨0, 0, fun _ _ _ _ _ => false⟩

/-- America/New_York: UTC-5 standard, UTC-4 during US DST. -/
def newYorkTz : Timezone := ⟨-300, 60, usDstLocal⟩

/-- Pacific/Honolulu: UTC-10, no DST. -/
def honoluluTz : Timezone := ⟨-600, 0, fun _ _ _ _ _ => false⟩

/-- One row of the `solar_alignments` table as read by the resolver
queries: the `base` CTE selects `station_name, month, day, hour, minute,
timezone` from the parquet file. -/
structure AlignmentRow where
  escalator_id : Nat
  station_name : String
  month : Nat
  day : Nat
  hour : Nat
  minute : Nat
  timezone : Timezone

/-- `make_timestamptz(year, month, day, hour, minute, 0, timezone)` for a
row, as in the `base` CTE of both queries. -/
def makeTimestamptz (year : Int) (r : AlignmentRow) : Int :=
  r.timezone.localize year r.month r.day r.hour r.minute

/-- The `${currentYear}` interpolated into both queries:
`new Date().getFullYear()` in the browser (session) zone at instant `now`. -/
def currentYear (sess : Timezone) (now : Int) : Int :=
  (sess.delocalize now).year

/-- ICU pins Feb 29 to Feb 28 when year arithmetic lands in a non-leap
year. -/
def clampDay (y : Int) (m d : Nat) : Nat :=
  if m = 2 ∧ d = 29 ∧ ¬ isLeapYear y then 28 else d

/-- `timestamptz + INTERVAL '1 year'` with the ICU extension: add one to
the year of the session-zone local components and re-localize in the
session zone. -/
def addOneYear (sess : Timezone) (t : Int) : Int :=
  let f := sess.delocalize t
  sess.localize (f.year + 1) f.month (clampDay (f.year + 1) f.month f.day) f.hour f.minute

/-- `timestamptz - INTERVAL '1 year'` with the ICU extension. -/
def subOneYear (sess : Timezone) (t : Int) : Int :=
  let f := sess.delocalize t
  sess.localize (f.year - 1) f.month (clampDay (f.year - 1) f.month f.day) f.hour f.minute

/-- The `CASE` expression of the `next_occurrences` CTE: keep the
this-year instant if it is `>= current_timestamp`, else add one year. -/
def upcomingProj (sess : Timezone) (now : Int) (r : AlignmentRow) : Int :=
  let t := makeTimestamptz (currentYear sess now) r
  if now ≤ t then t else addOneYear sess t

/-- The `CASE` expression of the `last_occurrences` CTE: keep the
this-year instant if it is `<= current_timestamp`, else subtract one year. -/
def recentProj (sess : Timezone) (now : Int) (r : AlignmentRow) : Int :=
  let t := makeTimestamptz (currentYear sess now) r
  if t ≤ now then t else subOneYear sess t

/-- The rows of a station's group (`GROUP BY station_name`). -/
def stationEvents (events : List AlignmentRow) (s : String) : List AlignmentRow :=
  events.filter (fun r => r.station_name == s)

/-- Minimum of a list of instants (`MIN` aggregate), `none` on the empty
group. -/
def ominStep (a : Option Int) (x : Int) : Option Int :=
  some (a.elim x (fun v => min v x))

/-- Maximum of a list of instants (`MAX` aggregate), `none` on the empty
group. -/
def omaxStep (a : Option Int) (x : Int) : Option Int :=
  some (a.elim x (fun v => max v x))

def listMin (l : List Int) : Option Int := l.foldl ominStep none

def listMax (l : List Int) : Option Int := l.foldl omaxStep none

/-- A station's projected instants surviving the final
`WHERE alignment_datetime >= current_timestamp` of the upcoming query. -/
def keptUpcoming (sess : Timezone) (events : List AlignmentRow) (now : Int)
    (s : String) : List Int :=
  ((stationEvents events s).map (upcomingProj sess now)).filter (fun v => now ≤ v)

/-- A station's projected instants surviving the final
`WHERE alignment_datetime <= current_timestamp` of the recent query. -/
def keptRecent (sess : Timezone) (events : List AlignmentRow) (now : Int)
    (s : String) : List Int :=
  ((stationEvents events s).map (recentProj sess now)).filter (fun v => v ≤ now)

/-- The upcoming query's value for a station:
`SELECT station_name, MIN(alignment_datetime) ... WHERE ... GROUP BY station_name`. -/
def upcomingResolve (sess : Timezone) (events : List AlignmentRow) (now : Int)
    (s : String) : Option Int :=
  listMin (keptUpcoming sess events now s)

/-- The recent query's value for a station:
`SELECT station_name, MAX(alignment_datetime) ... WHERE ... GROUP BY station_name`. -/
def recentResolve (sess : Timezone) (events : List AlignmentRow) (now : Int)
    (s : String) : Option Int :=
  listMax (keptRecent sess events now s)

/-- The distinct station keys occurring among the events. -/
def stationKeys (events : List AlignmentRow) : List String :=
  (events.map (fun r => r.station_name)).dedup

/-- The upcoming query's result set: one row per station key whose group
is non-empty after the final `WHERE`. -/
def upcomingRows (sess : Timezone) (events : List AlignmentRow) (now : Int) :
    List (String × Int) :=
  (stationKeys events).filterMap
    (fun s => (upcomingResolve sess events now s).map (fun v => (s, v)))

/-- The recent query's result set. -/
def recentRows (sess : Timezone) (events : List AlignmentRow) (now : Int) :
    List (String × Int) :=
  (stationKeys events).filterMap
    (fun s => (recentResolve sess events now s).map (fun v => (s, v)))

/-!  Schema data for the output contract (transcribed from the source).  -/

/-- The contracted `escalators` columns stated by the spec. -/
def contractedEscalatorsColumns : List String :=
  ["id", "station_name", "latitude", "longitude", "conveying", "azimuth"]

/-- The contracted `solar_alignments` columns stated by the spec. -/
def contractedSolarAlignmentsColumns : List String :=
  ["escalator_id", "month", "day", "hour", "minute", "timezone"]

/-- Columns of the `solar_alignments` parquet referenced by the `base` CTE
of both resolver queries in `src/index.md`. -/
def resolverSolarColumns : List String :=
  ["station_name", "month", "day", "hour", "minute", "timezone"]

/-- Join predicates appearing in the two resolver queries of
`src/index.md` (there are none; the queries read `solar_alignments`
alone). -/
def resolverJoinConditions : List (String × String) := []

/-- `sa.*` columns referenced by the `defaultSQL` console query of the
other `index.md` variant. -/
def consoleSolarColumns : List String := ["escalator_id", "alignment_datetime"]

/-- `e.*` columns referenced by that `defaultSQL` console query. -/
def consoleEscalatorColumns : List String :=
  ["id", "station_name", "conveying", "azimuth"]

/-- Join predicates of that `defaultSQL` console query
(`ON e.id = sa.escalator_id`). -/
def consoleJoinConditions : List (String × String) := [("id", "escalator_id")]

/-- `escalators` columns referenced by the `defaultSQL` of the earlier
console page (`src/unnamed/part_000`). -/
def part000EscalatorColumns : List String :=
  ["id", "name", "conveying", "incline", "lat", "lon", "changeset"]

/-!  Modelled from the spec: the Alignment Search component.  Its code is
not under `src/` (the repository ships only the precomputed
`solar_alignments` data and its consumers), so the component is modelled
from the spec, section 4.3: sample the ephemeris across the reference
year, score each sample by
`max(|elevation - incline_angle|, circularAzimuthDistance(azimuth, escalator.azimuth))`,
treat a maximal contiguous run of samples with score within tolerance as
one candidate window, and emit the sample of minimal score per window.  -/

/-- Modelled from the spec: the orientation data the search needs for one
escalator (shaft bearing and target solar elevation, degrees). -/
structure SearchEscalator where
  azimuth : ℚ
  incline_angle : ℚ

/-- Computable absolute value on the rationals (the lattice-derived `abs`
does not reduce by evaluation). -/
def qabs (a : ℚ) : ℚ := if a < 0 then -a else a

/-- Computable minimum on the rationals. -/
def qmin (a b : ℚ) : ℚ := if a ≤ b then a else b

/-- Computable maximum on the rationals. -/
def qmax (a b : ℚ) : ℚ := if a ≤ b then b else a

/-- Modelled from the spec: circular distance between two compass
bearings in `[0, 360)`. -/
def circularAzimuthDistance (a b : ℚ) : ℚ :=
  qmin (qabs (a - b)) (360 - qabs (a - b))

/-- Modelled from the spec: the alignment score of one sample. -/
def alignmentScore (esc : SearchEscalator) (elev az : ℚ) : ℚ :=
  qmax (qabs (elev - esc.incline_angle)) (circularAzimuthDistance az esc.azimuth)

/-- Modelled from the spec: emit the minimal-score sample of a candidate
window (empty window yields no event). -/
def emitWindow (score : Nat → ℚ) : List Nat → List Nat
  | [] => []
  | i :: is => [is.foldl (fun a b => if score b < score a then b else a) i]

/-- Modelled from the spec: scan the samples in chronological order,
collecting maximal contiguous runs of in-tolerance samples and emitting
one event per run. -/
def alignLoop (score : Nat → ℚ) (tol : ℚ) : List Nat → List Nat → List Nat
  | [], cur => emitWindow score cur
  | i :: rest, cur =>
    if score i ≤ tol then alignLoop score tol rest (cur ++ [i])
    else emitWindow score cur ++ alignLoop score tol rest []

/-- Modelled from the spec: `findAlignments` over `numSamples` samples of
the ephemeris (sample index determines the instant; the ephemeris gives
`(elevation, azimuth)` per sample). -/
def findAlignments (esc : SearchEscalator) (ephem : Nat → ℚ × ℚ) (tol : ℚ)
    (numSamples : Nat) : List Nat :=
  alignLoop (fun i => alignmentScore esc (ephem i).1 (ephem i).2) tol
    (List.range numSamples) []

/-!  Concrete instants and rows used by the closed theorems below.  -/

/-- Instant Dec 31 2025, 23:30 in Honolulu (the session zone of a viewer
in Hawaii just before local New Year). -/
def cexNow : Int := honoluluTz.localize 2025 12 31 23 30

/-- A New York event at Jan 1, 00:00. -/
def cexJanEvent : AlignmentRow := ⟨1, "S", 1, 1, 0, 0, newYorkTz⟩

/-- A New York event at Jul 1, 12:00. -/
def cexJulEvent : AlignmentRow := ⟨2, "S", 7, 1, 12, 0, newYorkTz⟩

/-- Instant Jun 21 2025, 12:00 UTC. -/
def eqNow : Int := utcTz.localize 2025 6 21 12 0

/-- A UTC event at Jun 21, 12:00 — its 2025 projection equals `eqNow`. -/
def eqEvent : AlignmentRow := ⟨3, "S", 6, 21, 12, 0, utcTz⟩

/-- Instant Jun 1 2025, 00:00 UTC. -/
def c5Now : Int := utcTz.localize 2025 6 1 0 0

/-- Instant Jun 1 2025, 00:00 New York. -/
def c5NowNY : Int := newYorkTz.localize 2025 6 1 0 0

/-- A New York event at Mar 8, 12:00 — a date inside the window where the
US DST status differs between 2025 (EST) and 2026 (EDT). -/
def c5Event : AlignmentRow := ⟨5, "S", 3, 8, 12, 0, newYorkTz⟩

/-- A New York event at Jun 21, 12:00 (the earlier of the six-months-apart
pair). -/
def scenJunEvent : AlignmentRow := ⟨11, "S", 6, 21, 12, 0, newYorkTz⟩

/-- A New York event at Dec 21, 12:00 (the later of the pair). -/
def scenDecEvent : AlignmentRow := ⟨12, "S", 12, 21, 12, 0, newYorkTz⟩

/-- Instant Jun 22 2025, 00:00 New York — just after the earlier event. -/
def scenNow : Int := newYorkTz.localize 2025 6 22 0 0

/-- An unknown-station (empty `station_name`) event, Jun 21 12:00 UTC. -/
def emptyRow1 : AlignmentRow := ⟨21, "", 6, 21, 12, 0, utcTz⟩

/-- A second unknown-station event, Dec 21 12:00 UTC. -/
def emptyRow2 : AlignmentRow := ⟨22, "", 12, 21, 12, 0, utcTz⟩

/-- A due-east escalator with the default 30 degree incline. -/
def sampleEscalator : SearchEscalator := ⟨90, 30⟩

/-- A toy ephemeris whose sun sits at elevation 30, azimuth 90 at every
sample. -/
def sampleEphemeris : Nat → ℚ × ℚ := fun _ => (30, 90)

/-!  Helper lemmas about the `MIN` / `MAX` aggregates.  -/

instance : RightCommutative ominStep :=
  ⟨fun b x y => by
    cases b with
    | none => simp [ominStep, min_comm]
    | some v => simp [ominStep, min_assoc, min_comm x y]⟩

instance : RightCommutative omaxStep :=
  ⟨fun b x y => by
    cases b with
    | none => simp [omaxStep, max_comm]
    | some v => simp [omaxStep, max_assoc, max_comm x y]⟩

theorem foldl_ominStep_spec (l : List Int) :
    ∀ a : Int, ∃ v, l.foldl ominStep (some a) = some v ∧ (v = a ∨ v ∈ l) ∧
      v ≤ a ∧ ∀ w ∈ l, v ≤ w := by
  induction l with
  | nil => intro a; exact ⟨a, rfl, Or.inl rfl, le_refl a, by simp⟩
  | cons x xs ih =>
    intro a
    obtain ⟨v, hv, hmem, hle, hall⟩ := ih (min a x)
    refine ⟨v, hv, ?_, hle.trans (min_le_left a x), ?_⟩
    · rcases hmem with h | h
      · rcases min_choice a x with h' | h'
        · exact Or.inl (h.trans h')
        · exact Or.inr (h.trans h' ▸ List.mem_cons_self x xs)
      · exact Or.inr (List.mem_cons_of_mem x h)
    · intro w hw
      rcases List.mem_cons.mp hw with rfl | hw
      · exact hle.trans (min_le_right a w)
      · exact hall w hw

theorem foldl_omaxStep_spec (l : List Int) :
    ∀ a : Int, ∃ v, l.foldl omaxStep (some a) = some v ∧ (v = a ∨ v ∈ l) ∧
      a ≤ v ∧ ∀ w ∈ l, w ≤ v := by
  induction l with
  | nil => intro a; exact ⟨a, rfl, Or.inl rfl, le_refl a, by simp⟩
  | cons x xs ih =>
    intro a
    obtain ⟨v, hv, hmem, hle, hall⟩ := ih (max a x)
    refine ⟨v, hv, ?_, (le_max_left a x).trans hle, ?_⟩
    · rcases hmem with h | h
      · rcases max_choice a x with h' | h'
        · exact Or.inl (h.trans h')
        · exact Or.inr (h.trans h' ▸ List.mem_cons_self x xs)
      · exact Or.inr (List.mem_cons_of_mem x h)
    · intro w hw
      rcases List.mem_cons.mp hw with rfl | hw
      · exact (le_max_right a w).trans hle
      · exact hall w hw

theorem listMin_eq_some_of_ne_nil {l : List Int} (hne : l ≠ []) :
    ∃ v, listMin l = some v ∧ v ∈ l ∧ ∀ w ∈ l, v ≤ w := by
  cases l with
  | nil => exact absurd rfl hne
  | cons x xs =>
    obtain ⟨v, hv, hmem, hle, hall⟩ := foldl_ominStep_spec xs x
    refine ⟨v, hv, ?_, ?_⟩
    · rcases hmem with h | h
      · exact List.mem_cons.mpr (Or.inl h)
      · exact List.mem_cons.mpr (Or.inr h)
    · intro w hw
      rcases List.mem_cons.mp hw with rfl | hw
      · exact hle
      · exact hall w hw

theorem listMax_eq_some_of_ne_nil {l : List Int} (hne : l ≠ []) :
    ∃ v, listMax l = some v ∧ v ∈ l ∧ ∀ w ∈ l, w ≤ v := by
  cases l with
  | nil => exact absurd rfl hne
  | cons x xs =>
    obtain ⟨v, hv, hmem, hle, hall⟩ := foldl_omaxStep_spec xs x
    refine ⟨v, hv, ?_, ?_⟩
    · rcases hmem with h | h
      · exact List.mem_cons.mpr (Or.inl h)
      · exact List.mem_cons.mpr (Or.inr h)
    · intro w hw
      rcases List.mem_cons.mp hw with rfl | hw
      · exact hle
      · exact hall w hw

theorem listMin_none_iff (l : List Int) : listMin l = none ↔ l = [] := by
  constructor
  · intro h
    by_contra hne
    obtain ⟨v, hv, _, _⟩ := listMin_eq_some_of_ne_nil hne
    rw [h] at hv
    exact Option.noConfusion hv
  · rintro rfl; rfl

theorem listMax_none_iff (l : List Int) : listMax l = none ↔ l = [] := by
  constructor
  · intro h
    by_contra hne
    obtain ⟨v, hv, _, _⟩ := listMax_eq_some_of_ne_nil hne
    rw [h] at hv
    exact Option.noConfusion hv
  · rintro rfl; rfl

theorem listMin_spec (l : List Int) (v : Int) :
    listMin l = some v ↔ v ∈ l ∧ ∀ w ∈ l, v ≤ w := by
  constructor
  · intro h
    have hne : l ≠ [] := by
      rintro rfl
      exact Option.noConfusion h
    obtain ⟨u, hu, humem, hule⟩ := listMin_eq_some_of_ne_nil hne
    rw [h] at hu
    obtain rfl := Option.some.inj hu
    exact ⟨humem, hule⟩
  · rintro ⟨hmem, hle⟩
    have hne : l ≠ [] := fun h => by simp [h] at hmem
    obtain ⟨u, hu, humem, hule⟩ := listMin_eq_some_of_ne_nil hne
    rw [hu]
    exact congrArg some (le_antisymm (hule v hmem) (hle u humem))

theorem listMax_spec (l : List Int) (v : Int) :
    listMax l = some v ↔ v ∈ l ∧ ∀ w ∈ l, w ≤ v := by
  constructor
  · intro h
    have hne : l ≠ [] := by
      rintro rfl
      exact Option.noConfusion h
    obtain ⟨u, hu, humem, hule⟩ := listMax_eq_some_of_ne_nil hne
    rw [h] at hu
    obtain rfl := Option.some.inj hu
    exact ⟨humem, hule⟩
  · rintro ⟨hmem, hle⟩
    have hne : l ≠ [] := fun h => by simp [h] at hmem
    obtain ⟨u, hu, humem, hule⟩ := listMax_eq_some_of_ne_nil hne
    rw [hu]
    exact congrArg some (le_antisymm (hle u humem) (hule v hmem))

theorem listMin_perm {l₁ l₂ : List Int} (p : l₁.Perm l₂) : listMin l₁ = listMin l₂ :=
  p.foldl_eq none

theorem listMax_perm {l₁ l₂ : List Int} (p : l₁.Perm l₂) : listMax l₁ = listMax l₂ :=
  p.foldl_eq none

/-!  Characterizations of the resolver in terms of the event list.  -/

theorem mem_keptUpcoming_iff (sess : Timezone) (events : List AlignmentRow)
    (now : Int) (s : String) (v : Int) :
    v ∈ keptUpcoming sess events now s ↔
      (∃ r, r ∈ events ∧ r.station_name = s ∧ upcomingProj sess now r = v) ∧
        now ≤ v := by
  unfold keptUpcoming stationEvents
  simp only [List.mem_filter, List.mem_map, decide_eq_true_eq, beq_iff_eq]
  constructor
  · rintro ⟨⟨r, ⟨hr, hs⟩, hv⟩, hnow⟩
    exact ⟨⟨r, hr, hs, hv⟩, hnow⟩
  · rintro ⟨⟨r, hr, hs, hv⟩, hnow⟩
    exact ⟨⟨r, ⟨hr, hs⟩, hv⟩, hnow⟩

theorem mem_keptRecent_iff (sess : Timezone) (events : List AlignmentRow)
    (now : Int) (s : String) (v : Int) :
    v ∈ keptRecent sess events now s ↔
      (∃ r, r ∈ events ∧ r.station_name = s ∧ recentProj sess now r = v) ∧
        v ≤ now := by
  unfold keptRecent stationEvents
  simp only [List.mem_filter, List.mem_map, decide_eq_true_eq, beq_iff_eq]
  constructor
  · rintro ⟨⟨r, ⟨hr, hs⟩, hv⟩, hnow⟩
    exact ⟨⟨r, hr, hs, hv⟩, hnow⟩
  · rintro ⟨⟨r, hr, hs, hv⟩, hnow⟩
    exact ⟨⟨r, ⟨hr, hs⟩, hv⟩, hnow⟩

theorem upcomingResolve_isSome_iff (sess : Timezone) (events : List AlignmentRow)
    (now : Int) (s : String) :
    (upcomingResolve sess events now s).isSome = true ↔
      ∃ r, r ∈ events ∧ r.station_name = s ∧ now ≤ upcomingProj sess now r := by
  constructor
  · intro h
    obtain ⟨v, hv⟩ := Option.isSome_iff_exists.mp h
    obtain ⟨hmem, _⟩ := (listMin_spec _ v).mp hv
    obtain ⟨⟨r, hr, hs, hpr⟩, hnow⟩ := (mem_keptUpcoming_iff sess events now s v).mp hmem
    exact ⟨r, hr, hs, hpr ▸ hnow⟩
  · rintro ⟨r, hr, hs, hnow⟩
    have hmem : upcomingProj sess now r ∈ keptUpcoming sess events now s :=
      (mem_keptUpcoming_iff sess events now s _).mpr ⟨⟨r, hr, hs, rfl⟩, hnow⟩
    have hne : keptUpcoming sess events now s ≠ [] := by
      rintro h
      rw [h] at hmem
      exact absurd hmem (List.not_mem_nil _)
    obtain ⟨v, hv, _, _⟩ := listMin_eq_some_of_ne_nil hne
    unfold upcomingResolve
    rw [hv]
    rfl

theorem recentResolve_isSome_iff (sess : Timezone) (events : List AlignmentRow)
    (now : Int) (s : String) :
    (recentResolve sess events now s).isSome = true ↔
      ∃ r, r ∈ events ∧ r.station_name = s ∧ recentProj sess now r ≤ now := by
  constructor
  · intro h
    obtain ⟨v, hv⟩ := Option.isSome_iff_exists.mp h
    obtain ⟨hmem, _⟩ := (listMax_spec _ v).mp hv
    obtain ⟨⟨r, hr, hs, hpr⟩, hnow⟩ := (mem_keptRecent_iff sess events now s v).mp hmem
    exact ⟨r, hr, hs, hpr ▸ hnow⟩
  · rintro ⟨r, hr, hs, hnow⟩
    have hmem : recentProj sess now r ∈ keptRecent sess events now s :=
      (mem_keptRecent_iff sess events now s _).mpr ⟨⟨r, hr, hs, rfl⟩, hnow⟩
    have hne : keptRecent sess events now s ≠ [] := by
      rintro h
      rw [h] at hmem
      exact absurd hmem (List.not_mem_nil _)
    obtain ⟨v, hv, _, _⟩ := listMax_eq_some_of_ne_nil hne
    unfold recentResolve
    rw [hv]
    rfl

theorem mem_stationKeys_iff (events : List AlignmentRow) (s : String) :
    s ∈ stationKeys events ↔ ∃ r, r ∈ events ∧ r.station_name = s := by
  unfold stationKeys
  simp [List.mem_dedup, List.mem_map]

theorem filterMap_rows_filter (f : String → Option Int) (s : String) :
    ∀ keys : List String, keys.Nodup →
      ((keys.filterMap (fun k => (f k).map (fun v => (k, v)))).filter
          (fun p => p.1 == s)) =
        if s ∈ keys then ((f s).map (fun v => (s, v))).toList else [] := by
  intro keys
  induction keys with
  | nil => intro _; simp
  | cons k ks ih =>
    intro hnd
    obtain ⟨hk, hnd'⟩ := List.nodup_cons.mp hnd
    cases hfk : f k with
    | none =>
      by_cases hks : s = k
      · subst hks
        simp [List.filterMap_cons, hfk, ih hnd', hk]
      · simp [List.filterMap_cons, hfk, ih hnd', hks]
    | some v =>
      by_cases hks : s = k
      · subst hks
        simp [List.filterMap_cons, hfk, List.filter_cons, ih hnd', hk]
      · have hne : k ≠ s := fun h => hks h.symm
        simp [List.filterMap_cons, hfk, List.filter_cons, ih hnd', hks, hne]

theorem upcomingRows_filter_eq (sess : Timezone) (events : List AlignmentRow)
    (now : Int) (s : String) :
    (upcomingRows sess events now).filter (fun p => p.1 == s) =
      if s ∈ stationKeys events then
        ((upcomingResolve sess events now s).map (fun v => (s, v))).toList
      else [] :=
  filterMap_rows_filter (fun k => upcomingResolve sess events now k) s
    (stationKeys events) (List.nodup_dedup _)

theorem recentRows_filter_eq (sess : Timezone) (events : List AlignmentRow)
    (now : Int) (s : String) :
    (recentRows sess events now).filter (fun p => p.1 == s) =
      if s ∈ stationKeys events then
        ((recentResolve sess events now s).map (fun v => (s, v))).toList
      else [] :=
  filterMap_rows_filter (fun k => recentResolve sess events now k) s
    (stationKeys events) (List.nodup_dedup _)

/-!  Helper lemmas for the Alignment Search model.  -/

theorem qabs_eq_abs (a : ℚ) : qabs a = |a| := by
  unfold qabs
  rcases lt_or_ge a 0 with h | h
  · rw [if_pos h, abs_of_neg h]
  · rw [if_neg (not_lt.mpr h), abs_of_nonneg h]

theorem qmin_eq_min (a b : ℚ) : qmin a b = min a b := by
  unfold qmin
  rcases le_or_lt a b with h | h
  · rw [if_pos h, min_eq_left h]
  · rw [if_neg (not_le.mpr h), min_eq_right h.le]

theorem qmax_eq_max (a b : ℚ) : qmax a b = max a b := by
  unfold qmax
  rcases le_or_lt a b with h | h
  · rw [if_pos h, max_eq_right h]
  · rw [if_neg (not_le.mpr h), max_eq_left h.le]

theorem foldl_pick_mem (score : Nat → ℚ) :
    ∀ (is : List Nat) (i : Nat),
      is.foldl (fun a b => if score b < score a then b else a) i ∈ i :: is := by
  intro is
  induction is with
  | nil => intro i; exact List.mem_cons_self i []
  | cons j js ih =>
    intro i
    have h := ih (if score j < score i then j else i)
    rcases List.mem_cons.mp h with h' | h'
    · rw [List.foldl_cons, h']
      split
      · exact List.mem_cons.mpr (Or.inr (List.mem_cons_self j js))
      · exact List.mem_cons_self i (j :: js)
    · exact List.mem_cons.mpr (Or.inr (List.mem_cons.mpr (Or.inr h')))

theorem emitWindow_mem (score : Nat → ℚ) (l : List Nat) (j : Nat)
    (h : j ∈ emitWindow score l) : j ∈ l := by
  cases l with
  | nil => exact absurd h (List.not_mem_nil j)
  | cons i is =>
    obtain rfl := List.mem_singleton.mp h
    exact foldl_pick_mem score is i

theorem alignLoop_sound (score : Nat → ℚ) (tol : ℚ) :
    ∀ (samples cur : List Nat), (∀ i ∈ cur, score i ≤ tol) →
      ∀ j ∈ alignLoop score tol samples cur, score j ≤ tol := by
  intro samples
  induction samples with
  | nil =>
    intro cur hcur j hj
    exact hcur j (emitWindow_mem score cur j hj)
  | cons i rest ih =>
    intro cur hcur j hj
    by_cases h : score i ≤ tol
    · rw [alignLoop, if_pos h] at hj
      refine ih (cur ++ [i]) ?_ j hj
      intro i' hi'
      rcases List.mem_append.mp hi' with h' | h'
      · exact hcur i' h'
      · obtain rfl := List.mem_singleton.mp h'
        exact h
    · rw [alignLoop, if_neg h] at hj
      rcases List.mem_append.mp hj with h' | h'
      · exact hcur j (emitWindow_mem score cur j h')
      · exact ih [] (by simp) j h'

theorem upcomingRows_filter_length (sess : Timezone) (events : List AlignmentRow)
    (now : Int) (s : String) :
    ((upcomingRows sess events now).filter (fun p => p.1 == s)).length
      = if (upcomingResolve sess events now s).isSome = true then 1 else 0 := by
  rw [upcomingRows_filter_eq]
  by_cases hin : s ∈ stationKeys events
  · rw [if_pos hin]
    cases hres : upcomingResolve sess events now s <;> simp [hres]
  · rw [if_neg hin]
    cases hres : upcomingResolve sess events now s with
    | none => simp [hres]
    | some v =>
      exfalso
      have h1 := (upcomingResolve_isSome_iff sess events now s).mp (by rw [hres]; rfl)
      obtain ⟨r, hr, hs, _⟩ := h1
      exact hin ((mem_stationKeys_iff events s).mpr ⟨r, hr, hs⟩)

theorem recentRows_filter_length (sess : Timezone) (events : List AlignmentRow)
    (now : Int) (s : String) :
    ((recentRows sess events now).filter (fun p => p.1 == s)).length
      = if (recentResolve sess events now s).isSome = true then 1 else 0 := by
  rw [recentRows_filter_eq]
  by_cases hin : s ∈ stationKeys events
  · rw [if_pos hin]
    cases hres : recentResolve sess events now s <;> simp [hres]
  · rw [if_neg hin]
    cases hres : recentResolve sess events now s with
    | none => simp [hres]
    | some v =>
      exfalso
      have h1 := (recentResolve_isSome_iff sess events now s).mp (by rw [hres]; rfl)
      obtain ⟨r, hr, hs, _⟩ := h1
      exact hin ((mem_stationKeys_iff events s).mpr ⟨r, hr, hs⟩)

/-- C1 (counterexample): with the session (browser) zone in Honolulu and
two New York events at one station, for `now` = Dec 31 2025, 23:30 HST
the upcoming resolver does not return the minimum projected instant of
the station's group: the Jan 1 event's one-year-shifted projection is the
group minimum but still falls before `now`, so the final `WHERE` drops it
and the Jul 1 event's projection is returned instead. -/
theorem upcoming_not_group_minimum :
    upcomingResolve honoluluTz [cexJanEvent, cexJulEvent] cexNow "S"
      = some (upcomingProj honoluluTz cexNow cexJulEvent) ∧
    upcomingProj honoluluTz cexNow cexJanEvent
      < upcomingProj honoluluTz cexNow cexJulEvent :=
  ⟨by decide, by decide⟩

/-- C1 (amended): for direction = upcoming the resolver projects each
event onto the session-local calendar year of `now`, adds one session
calendar year when the projection is strictly before `now`, groups the
projections by `station_name`, and returns for every station the minimum
projected instant among those that are `>= now` (the final `WHERE`
filter); projections still before `now` after the shift are excluded
rather than returned.  For a `now` just after the earlier of two
same-station, same-zone events six months apart it returns the later
event's projection, never the earlier one's. -/
theorem upcoming_is_filtered_group_min :
    (∀ (sess : Timezone) (events : List AlignmentRow) (now : Int) (s : String)
        (v : Int),
      upcomingResolve sess events now s = some v ↔
        ((∃ r, r ∈ events ∧ r.station_name = s ∧ upcomingProj sess now r = v) ∧
          now ≤ v ∧
          ∀ r, r ∈ events → r.station_name = s →
            now ≤ upcomingProj sess now r → v ≤ upcomingProj sess now r)) ∧
    upcomingResolve newYorkTz [scenJunEvent, scenDecEvent] scenNow "S"
      = some (makeTimestamptz 2025 scenDecEvent) ∧
    makeTimestamptz 2025 scenDecEvent
      < upcomingProj newYorkTz scenNow scenJunEvent := by
  refine ⟨?_, by decide, by decide⟩
  intro sess events now s v
  unfold upcomingResolve
  rw [listMin_spec]
  constructor
  · rintro ⟨hmem, hall⟩
    obtain ⟨⟨r, hr, hs, hpr⟩, hnow⟩ :=
      (mem_keptUpcoming_iff sess events now s v).mp hmem
    refine ⟨⟨r, hr, hs, hpr⟩, hnow, ?_⟩
    intro r' hr' hs' hnow'
    exact hall _
      ((mem_keptUpcoming_iff sess events now s _).mpr ⟨⟨r', hr', hs', rfl⟩, hnow'⟩)
  · rintro ⟨⟨r, hr, hs, hpr⟩, hnow, hall⟩
    refine ⟨(mem_keptUpcoming_iff sess events now s v).mpr ⟨⟨r, hr, hs, hpr⟩, hnow⟩, ?_⟩
    intro w hw
    obtain ⟨⟨r', hr', hs', hpr'⟩, hnow'⟩ :=
      (mem_keptUpcoming_iff sess events now s w).mp hw
    exact hpr' ▸ hall r' hr' hs' (hpr' ▸ hnow')

/-- C1 witness: the filtered-minimum characterization applied to the
six-months-apart scenario. -/
theorem upcoming_min_witness :
    upcomingResolve newYorkTz [scenJunEvent, scenDecEvent] scenNow "S"
      = some (makeTimestamptz 2025 scenDecEvent) :=
  (upcoming_is_filtered_group_min.1 newYorkTz [scenJunEvent, scenDecEvent] scenNow
    "S" (makeTimestamptz 2025 scenDecEvent)).mpr
    ⟨⟨scenDecEvent, List.mem_cons.mpr (Or.inr (List.mem_singleton_self _)), rfl,
      by decide⟩,
     by decide,
     by
      intro r hr hs hnow
      rcases List.mem_cons.mp hr with rfl | hr'
      · decide
      · obtain rfl := List.mem_singleton.mp hr'
        decide⟩

/-- C2 (confirmed): for direction = recent the resolver mirrors the
upcoming algorithm — each event is projected onto the session-local
calendar year of `now`, one calendar year is subtracted when the
projection is strictly after `now`, and for every station the result is
the maximum projected instant that is `<= now` in its group. -/
theorem recent_is_filtered_group_max :
    (∀ (sess : Timezone) (now : Int) (r : AlignmentRow),
      (makeTimestamptz (currentYear sess now) r ≤ now →
        recentProj sess now r = makeTimestamptz (currentYear sess now) r) ∧
      (now < makeTimestamptz (currentYear sess now) r →
        recentProj sess now r
          = subOneYear sess (makeTimestamptz (currentYear sess now) r))) ∧
    (∀ (sess : Timezone) (events : List AlignmentRow) (now : Int) (s : String)
        (v : Int),
      recentResolve sess events now s = some v ↔
        ((∃ r, r ∈ events ∧ r.station_name = s ∧ recentProj sess now r = v) ∧
          v ≤ now ∧
          ∀ r, r ∈ events → r.station_name = s →
            recentProj sess now r ≤ now → recentProj sess now r ≤ v)) := by
  constructor
  · intro sess now r
    constructor
    · intro h
      unfold recentProj
      rw [if_pos h]
    · intro h
      unfold recentProj
      rw [if_neg (not_le.mpr h)]
  · intro sess events now s v
    unfold recentResolve
    rw [listMax_spec]
    constructor
    · rintro ⟨hmem, hall⟩
      obtain ⟨⟨r, hr, hs, hpr⟩, hnow⟩ :=
        (mem_keptRecent_iff sess events now s v).mp hmem
      refine ⟨⟨r, hr, hs, hpr⟩, hnow, ?_⟩
      intro r' hr' hs' hnow'
      exact hall _
        ((mem_keptRecent_iff sess events now s _).mpr ⟨⟨r', hr', hs', rfl⟩, hnow'⟩)
    · rintro ⟨⟨r, hr, hs, hpr⟩, hnow, hall⟩
      refine ⟨(mem_keptRecent_iff sess events now s v).mpr ⟨⟨r, hr, hs, hpr⟩, hnow⟩, ?_⟩
      intro w hw
      obtain ⟨⟨r', hr', hs', hpr'⟩, hnow'⟩ :=
        (mem_keptRecent_iff sess events now s w).mp hw
      exact hpr' ▸ hall r' hr' hs' (hpr' ▸ hnow')

/-- C2 witness: a concrete projection at or before `now` is kept as is. -/
theorem recent_mirror_witness :
    makeTimestamptz (currentYear utcTz eqNow) eqEvent ≤ eqNow ∧
    recentProj utcTz eqNow eqEvent
      = makeTimestamptz (currentYear utcTz eqNow) eqEvent :=
  ⟨by decide, (recent_is_filtered_group_max.1 utcTz eqNow eqEvent).1 (by decide)⟩

/-- C3 (counterexample): a concrete event whose 2025 projection equals
`now` exactly is returned by BOTH the upcoming and the recent query (the
recent comparison `<=` and its final `WHERE <=` are also inclusive), so
an instant equal to `now` does appear in both results. -/
theorem equal_instant_in_both_results :
    upcomingResolve utcTz [eqEvent] eqNow "S" = some eqNow ∧
    recentResolve utcTz [eqEvent] eqNow "S" = some eqNow :=
  ⟨by decide, by decide⟩

/-- C3 (amended): an event whose projection equals `now` exactly is
classified as upcoming (the comparison is an inclusive lower bound), and
it is equally classified as recent (that comparison is an inclusive upper
bound): such an instant is reported in both directions. -/
theorem equal_instant_upcoming_and_recent :
    ∀ (sess : Timezone) (now : Int) (r : AlignmentRow),
      makeTimestamptz (currentYear sess now) r = now →
      upcomingProj sess now r = now ∧ recentProj sess now r = now ∧
      upcomingResolve sess [r] now r.station_name = some now ∧
      recentResolve sess [r] now r.station_name = some now := by
  intro sess now r h
  have hup : upcomingProj sess now r = now := by
    unfold upcomingProj
    rw [h, if_pos (le_refl now)]
  have hre : recentProj sess now r = now := by
    unfold recentProj
    rw [h, if_pos (le_refl now)]
  refine ⟨hup, hre, ?_, ?_⟩
  · unfold upcomingResolve
    rw [listMin_spec]
    refine ⟨(mem_keptUpcoming_iff sess [r] now r.station_name now).mpr
      ⟨⟨r, List.mem_singleton_self r, rfl, hup⟩, le_refl now⟩, ?_⟩
    intro w hw
    obtain ⟨⟨r', hr', _, hpr'⟩, hnow'⟩ :=
      (mem_keptUpcoming_iff sess [r] now r.station_name w).mp hw
    obtain rfl := List.mem_singleton.mp hr'
    rw [← hpr', hup]
  · unfold recentResolve
    rw [listMax_spec]
    refine ⟨(mem_keptRecent_iff sess [r] now r.station_name now).mpr
      ⟨⟨r, List.mem_singleton_self r, rfl, hre⟩, le_refl now⟩, ?_⟩
    intro w hw
    obtain ⟨⟨r', hr', _, hpr'⟩, hnow'⟩ :=
      (mem_keptRecent_iff sess [r] now r.station_name w).mp hw
    obtain rfl := List.mem_singleton.mp hr'
    rw [← hpr', hre]

/-- C3 witness: the amended statement applied to the concrete equal-now
event. -/
theorem equal_instant_witness :
    makeTimestamptz (currentYear utcTz eqNow) eqEvent = eqNow ∧
    (upcomingProj utcTz eqNow eqEvent = eqNow ∧
      recentProj utcTz eqNow eqEvent = eqNow ∧
      upcomingResolve utcTz [eqEvent] eqNow eqEvent.station_name = some eqNow ∧
      recentResolve utcTz [eqEvent] eqNow eqEvent.station_name = some eqNow) :=
  ⟨by decide, equal_instant_upcoming_and_recent utcTz eqNow eqEvent (by decide)⟩

/-- C4 (counterexample): a station with one AlignmentEvent (a New York
Jan 1 event) produces ZERO rows in the upcoming result when the session
zone is Honolulu and `now` is Dec 31 2025, 23:30 HST: the event's
one-year-shifted projection still precedes `now` and the final `WHERE`
removes the station entirely. -/
theorem single_event_station_absent :
    upcomingRows honoluluTz [cexJanEvent] cexNow = [] ∧
    cexJanEvent.station_name = "S" ∧ cexJanEvent ∈ [cexJanEvent] :=
  ⟨by decide, rfl, List.mem_singleton_self _⟩

/-- C4 (amended): a station produces exactly one row in a direction's
result precisely when it has at least one event whose projection survives
that direction's bound (`>= now` for upcoming, `<= now` for recent); in
every case it produces at most one row, and a station with zero events is
absent, not null.  A station all of whose projections fall on the wrong
side of `now` after the one-year shift is also absent. -/
theorem station_row_iff_surviving_projection :
    ∀ (sess : Timezone) (events : List AlignmentRow) (now : Int) (s : String),
      (((upcomingRows sess events now).filter (fun p => p.1 == s)).length = 1 ↔
        ∃ r, r ∈ events ∧ r.station_name = s ∧ now ≤ upcomingProj sess now r) ∧
      (((recentRows sess events now).filter (fun p => p.1 == s)).length = 1 ↔
        ∃ r, r ∈ events ∧ r.station_name = s ∧ recentProj sess now r ≤ now) ∧
      ((upcomingRows sess events now).filter (fun p => p.1 == s)).length ≤ 1 ∧
      ((recentRows sess events now).filter (fun p => p.1 == s)).length ≤ 1 := by
  intro sess events now s
  refine ⟨?_, ?_, ?_, ?_⟩
  · rw [upcomingRows_filter_length, ← upcomingResolve_isSome_iff]
    by_cases h : (upcomingResolve sess events now s).isSome = true
    · simp [h]
    · simp [h]
  · rw [recentRows_filter_length, ← recentResolve_isSome_iff]
    by_cases h : (recentResolve sess events now s).isSome = true
    · simp [h]
    · simp [h]
  · rw [upcomingRows_filter_length]
    split <;> simp
  · rw [recentRows_filter_length]
    split <;> simp

/-- C5 (counterexample): the one-year shift is not a re-localization of
the stored wall-clock components in the stored IANA zone for the adjacent
year: for a New York Mar 8, 12:00 event (EST in 2025 but EDT in 2026) and
a UTC session zone, the shifted instant differs by one hour from
`make_timestamptz(currentYear + 1, ...)` in the stored zone. -/
theorem year_shift_ignores_stored_zone :
    upcomingProj utcTz c5Now c5Event
      = makeTimestamptz (currentYear utcTz c5Now + 1) c5Event + 60 := by decide

/-- C5 (amended): the one-year shift is ICU calendar arithmetic in the
SESSION time zone — one is added to (or subtracted from) the
session-local year, with Feb 29 pinned to Feb 28 — which honours leap
years and the session zone's DST rules rather than the stored zone's; it
coincides with re-localization in the stored zone when the stored zone is
the session zone, and it is not a naive 365-day shift of the instant. -/
theorem year_shift_session_calendar :
    (∀ (sess : Timezone) (now : Int) (r : AlignmentRow),
      makeTimestamptz (currentYear sess now) r < now →
      upcomingProj sess now r
        = addOneYear sess (makeTimestamptz (currentYear sess now) r)) ∧
    (∀ (sess : Timezone) (now : Int) (r : AlignmentRow),
      now < makeTimestamptz (currentYear sess now) r →
      recentProj sess now r
        = subOneYear sess (makeTimestamptz (currentYear sess now) r)) ∧
    upcomingProj newYorkTz c5NowNY c5Event
      = makeTimestamptz (currentYear newYorkTz c5NowNY + 1) c5Event ∧
    addOneYear utcTz (utcTz.localize 2023 3 8 12 0) = utcTz.localize 2024 3 8 12 0 ∧
    addOneYear utcTz (utcTz.localize 2023 3 8 12 0)
      ≠ utcTz.localize 2023 3 8 12 0 + 365 * 1440 ∧
    addOneYear utcTz (utcTz.localize 2024 2 29 10 0) = utcTz.localize 2025 2 28 10 0 := by
  refine ⟨?_, ?_, by decide, by decide, by decide, by decide⟩
  · intro sess now r h
    unfold upcomingProj
    rw [if_neg (not_le.mpr h)]
  · intro sess now r h
    unfold recentProj
    rw [if_neg (not_le.mpr h)]

/-- C5 witness: the general shift equation applied to the concrete
UTC-session scenario. -/
theorem year_shift_witness :
    makeTimestamptz (currentYear utcTz c5Now) c5Event < c5Now ∧
    upcomingProj utcTz c5Now c5Event
      = addOneYear utcTz (makeTimestamptz (currentYear utcTz c5Now) c5Event) :=
  ⟨by decide, year_shift_session_calendar.1 utcTz c5Now c5Event (by decide)⟩

/-- C6 (confirmed): for a fixed session zone, event set and `now`, the
resolver is a pure function, and its station-to-datetime mapping is
invariant under any reordering (permutation) of the event list, in both
directions. -/
theorem resolver_order_independent :
    ∀ (sess : Timezone) (now : Int) (events₁ events₂ : List AlignmentRow),
      events₁.Perm events₂ →
      (∀ s, upcomingResolve sess events₁ now s = upcomingResolve sess events₂ now s) ∧
      (∀ s, recentResolve sess events₁ now s = recentResolve sess events₂ now s) := by
  intro sess now l₁ l₂ hp
  constructor
  · intro s
    exact listMin_perm (((hp.filter _).map _).filter _)
  · intro s
    exact listMax_perm (((hp.filter _).map _).filter _)

/-- C6 witness: swapping two concrete events leaves the upcoming result
unchanged. -/
theorem resolver_order_witness :
    upcomingResolve honoluluTz [cexJanEvent, cexJulEvent] cexNow "S"
      = upcomingResolve honoluluTz [cexJulEvent, cexJanEvent] cexNow "S" :=
  (resolver_order_independent honoluluTz cexNow _ _
    (List.Perm.swap cexJulEvent cexJanEvent [])).1 "S"

/-- C7 (counterexample): the resolver queries read `station_name`
directly from the `solar_alignments` parquet — a column outside the
contracted (escalator_id, month, day, hour, minute, timezone) field list —
and they contain no join at all, so not every downstream consumer joins
the two tables on `id` = `escalator_id`. -/
theorem resolver_reads_station_from_solar :
    "station_name" ∈ resolverSolarColumns ∧
    contractedSolarAlignmentsColumns.count "station_name" = 0 ∧
    resolverJoinConditions = [] := by decide

/-- C7 (amended): the console default query does join the two tables on
`id` = `escalator_id` and reads only contracted `escalators` columns, but
the `solar_alignments` table as consumed also carries `station_name` (and,
in the console variant, an `alignment_datetime` column) beyond the
contracted field list, the resolver queries consume `solar_alignments`
alone with no join, and the earlier console page reads `escalators`
columns (`name`, `incline`, `lat`, `lon`, `changeset`) outside the
contract. -/
theorem schema_contract_actual :
    consoleJoinConditions = [("id", "escalator_id")] ∧
    consoleEscalatorColumns.all
      (fun c => contractedEscalatorsColumns.contains c) = true ∧
    "alignment_datetime" ∈ consoleSolarColumns ∧
    contractedSolarAlignmentsColumns.count "alignment_datetime" = 0 ∧
    "station_name" ∈ resolverSolarColumns ∧
    resolverJoinConditions = [] ∧
    resolverSolarColumns.all
      (fun c => c == "station_name" || contractedSolarAlignmentsColumns.contains c)
      = true ∧
    "lat" ∈ part000EscalatorColumns ∧
    contractedEscalatorsColumns.count "lat" = 0 := by decide

/-- C8 (confirmed, spec-modelled): every event emitted by the Alignment
Search comes from an in-tolerance window, so at the event's instant both
the elevation error and the circular azimuth distance are within
`toleranceDegrees`, the alignment score being the maximum of the two. -/
theorem search_events_within_tolerance :
    ∀ (esc : SearchEscalator) (ephem : Nat → ℚ × ℚ) (tol : ℚ) (n j : Nat),
      j ∈ findAlignments esc ephem tol n →
      |(ephem j).1 - esc.incline_angle| ≤ tol ∧
        circularAzimuthDistance (ephem j).2 esc.azimuth ≤ tol ∧
        alignmentScore esc (ephem j).1 (ephem j).2
          = max |(ephem j).1 - esc.incline_angle|
              (circularAzimuthDistance (ephem j).2 esc.azimuth) := by
  intro esc ephem tol n j hj
  have h : alignmentScore esc (ephem j).1 (ephem j).2 ≤ tol :=
    alignLoop_sound (fun i => alignmentScore esc (ephem i).1 (ephem i).2) tol
      (List.range n) [] (by simp) j hj
  have hscore : alignmentScore esc (ephem j).1 (ephem j).2
      = max |(ephem j).1 - esc.incline_angle|
          (circularAzimuthDistance (ephem j).2 esc.azimuth) := by
    unfold alignmentScore
    rw [qmax_eq_max, qabs_eq_abs]
  rw [hscore] at h
  exact ⟨(max_le_iff.mp h).1, (max_le_iff.mp h).2, hscore⟩

/-- C8 witness: a concrete escalator and ephemeris for which the search
emits sample 0, which therefore satisfies both angular bounds. -/
theorem search_tolerance_witness :
    0 ∈ findAlignments sampleEscalator sampleEphemeris 1 3 ∧
    (|(sampleEphemeris 0).1 - sampleEscalator.incline_angle| ≤ 1 ∧
      circularAzimuthDistance (sampleEphemeris 0).2 sampleEscalator.azimuth ≤ 1 ∧
      alignmentScore sampleEscalator (sampleEphemeris 0).1 (sampleEphemeris 0).2
        = max |(sampleEphemeris 0).1 - sampleEscalator.incline_angle|
            (circularAzimuthDistance (sampleEphemeris 0).2 sampleEscalator.azimuth)) :=
  ⟨by
    norm_num [findAlignments, alignLoop, emitWindow, alignmentScore,
      circularAzimuthDistance, qabs, qmin, qmax, sampleEscalator,
      sampleEphemeris, List.range_succ],
   search_events_within_tolerance sampleEscalator sampleEphemeris 1 3 0 (by
    norm_num [findAlignments, alignLoop, emitWindow, alignmentScore,
      circularAzimuthDistance, qabs, qmin, qmax, sampleEscalator,
      sampleEphemeris, List.range_succ])⟩

/-- C9 (confirmed): every datetime in the upcoming result is `>=` the
query-evaluation timestamp and every datetime in the recent result is
`<=` it — the final `WHERE` filters enforce these bounds on the grouped
output. -/
theorem resolver_output_bounds :
    ∀ (sess : Timezone) (events : List AlignmentRow) (now : Int) (s : String),
      (∀ v, upcomingResolve sess events now s = some v → now ≤ v) ∧
      (∀ v, recentResolve sess events now s = some v → v ≤ now) := by
  intro sess events now s
  constructor
  · intro v hv
    unfold upcomingResolve at hv
    have h := (listMin_spec _ v).mp hv
    exact ((mem_keptUpcoming_iff sess events now s v).mp h.1).2
  · intro v hv
    unfold recentResolve at hv
    have h := (listMax_spec _ v).mp hv
    exact ((mem_keptRecent_iff sess events now s v).mp h.1).2

/-- C9 witness: the bounds at the concrete Honolulu-session scenario. -/
theorem resolver_bounds_witness :
    cexNow ≤ upcomingProj honoluluTz cexNow cexJulEvent ∧
    recentProj honoluluTz cexNow cexJanEvent ≤ cexNow :=
  ⟨(resolver_output_bounds honoluluTz [cexJanEvent, cexJulEvent] cexNow "S").1 _
    (by decide),
   (resolver_output_bounds honoluluTz [cexJanEvent] cexNow "S").2 _
    (by decide)⟩

/-- C10 (confirmed): events with an empty `station_name` all group under
the single empty-string key, so each direction's output has at most one
row for all unknown-station escalators combined — exactly one as soon as
one of their projections survives the direction's bound — and they are
never reported per escalator. -/
theorem unknown_station_single_group :
    ∀ (sess : Timezone) (events : List AlignmentRow) (now : Int),
      ((upcomingRows sess events now).filter (fun p => p.1 == "")).length ≤ 1 ∧
      ((recentRows sess events now).filter (fun p => p.1 == "")).length ≤ 1 ∧
      ((∃ r, r ∈ events ∧ r.station_name = "" ∧ now ≤ upcomingProj sess now r) →
        ((upcomingRows sess events now).filter (fun p => p.1 == "")).length = 1) ∧
      ((∃ r, r ∈ events ∧ r.station_name = "" ∧ recentProj sess now r ≤ now) →
        ((recentRows sess events now).filter (fun p => p.1 == "")).length = 1) := by
  intro sess events now
  refine ⟨?_, ?_, ?_, ?_⟩
  · rw [upcomingRows_filter_length]
    split <;> simp
  · rw [recentRows_filter_length]
    split <;> simp
  · intro hex
    rw [upcomingRows_filter_length]
    rw [if_pos ((upcomingResolve_isSome_iff sess events now "").mpr hex)]
  · intro hex
    rw [recentRows_filter_length]
    rw [if_pos ((recentResolve_isSome_iff sess events now "").mpr hex)]

/-- C10 witness: two concrete unknown-station events produce exactly one
upcoming row under the empty-string key. -/
theorem unknown_station_witness :
    (∃ r, r ∈ [emptyRow1, emptyRow2] ∧ r.station_name = "" ∧
      eqNow ≤ upcomingProj utcTz eqNow r) ∧
    ((upcomingRows utcTz [emptyRow1, emptyRow2] eqNow).filter
        (fun p => p.1 == "")).length = 1 :=
  ⟨⟨emptyRow1, List.mem_cons_self _ _, rfl, by decide⟩,
   (unknown_station_single_group utcTz [emptyRow1, emptyRow2] eqNow).2.2.1
     ⟨emptyRow1, List.mem_cons_self _ _, rfl, by decide⟩⟩
